import Mathlib

/-!
# Replica Resolution and Propagation Engine — verification development

Shallow embedding of the replica-catalog engine of `dirac-cwl`
(`src/dirac_cwl/job/executor/`): the catalog data model, the
path-resolution layer (`fs_access.py`), the step-interception controller
(`executor.py`), the staging adapter (`pathmapper.py`) and the final
persistence logic (`__main__.py`), together with proofs of the claimed
properties.

Python dictionaries are embedded as association lists with first-match
lookup and replace-in-place/append-at-end assignment, which coincides
with `dict` semantics on duplicate-free key lists.  Machine paths are
plain strings; the ambient filesystem is an explicit finite structure.
-/

namespace DiracCWL

/-- Python `d.get(k)` on a dict embedded as an association list:
first binding wins. -/
def dictGet? {α : Type} : List (String × α) → String → Option α
  | [], _ => none
  | (k', v) :: rest, k => if k' = k then some v else dictGet? rest k

/-- Python `d[k] = v`: replace the first binding of `k` in place,
or append a new binding at the end when `k` is absent. -/
def dictSet {α : Type} : List (String × α) → String → α → List (String × α)
  | [], k, v => [(k, v)]
  | (k', v') :: rest, k, v =>
      if k' = k then (k', v) :: rest else (k', v') :: dictSet rest k v

theorem dictGet?_dictSet_self {α : Type} (m : List (String × α)) (k : String) (v : α) :
    dictGet? (dictSet m k v) k = some v := by
  induction m with
  | nil => simp [dictGet?, dictSet]
  | cons hd tl ih =>
      obtain ⟨k', v'⟩ := hd
      by_cases h : k' = k
      · simp [dictGet?, dictSet, h]
      · simp [dictGet?, dictSet, h, ih]

theorem dictGet?_dictSet_ne {α : Type} (m : List (String × α)) (k k' : String) (v : α)
    (h : k' ≠ k) : dictGet? (dictSet m k v) k' = dictGet? m k' := by
  have h' : ¬ k = k' := fun hh => h hh.symm
  induction m with
  | nil => simp [dictGet?, dictSet, h']
  | cons hd tl ih =>
      obtain ⟨k0, v0⟩ := hd
      by_cases h0 : k0 = k
      · subst h0
        simp [dictGet?, dictSet, h']
      · simp only [dictSet, if_neg h0]
        by_cases h1 : k0 = k'
        · simp [dictGet?, h1]
        · simp [dictGet?, h1, ih]

theorem dictGet?_isSome_dictSet {α : Type} (m : List (String × α)) (k k' : String) (v : α)
    (h : (dictGet? m k').isSome) : (dictGet? (dictSet m k v) k').isSome := by
  by_cases hk : k' = k
  · subst hk; simp [dictGet?_dictSet_self]
  · rwa [dictGet?_dictSet_ne m k k' v hk]

/-! ## Catalog data model

`ReplicaMap` (diracx `RootModel`): mapping LFN → `MapEntry`, where an
entry has an ordered replica list and optional size/checksum metadata.
A URL is kept abstract as its parsed components used by the code:
`scheme`, `path` (the path component, optional) and `full` (the string
rendering `str(url)`). -/

structure Url where
  scheme : String
  path : Option String
  full : String
deriving DecidableEq, Repr

structure Checksum where
  adler32 : Option String
  guid : Option String
deriving DecidableEq, Repr

structure Replica where
  url : Url
  se : Option String
deriving DecidableEq, Repr

structure MapEntry where
  replicas : List Replica
  size_bytes : Option Nat
  checksum : Option Checksum
deriving DecidableEq, Repr

/-- The catalog: Python `ReplicaMap.root` dict embedded as an
association list keyed by LFN. -/
abbrev ReplicaMap := List (String × MapEntry)

/-- Python `s.startswith(p)` (spelled out over `String.take`, which the
kernel evaluates). -/
def strStarts (s p : String) : Bool :=
  s.take p.length == p

/-- Python `s.removeprefix("LFN:")`. -/
def stripLfnMarker (s : String) : String :=
  if strStarts s "LFN:" then s.drop 4 else s

/-! ## Path-resolution layer (`fs_access.py`)

`DiracReplicaMapFsAccess` extends cwltool's `StdFsAccess`.  The parent
class's primitives (which apply `_abs` path normalisation and then the
OS call) are embedded as operations over an explicit finite filesystem
`FS`; path normalisation is the identity (paths are taken as already
absolute). -/

/-- Errors raised by the resolution layer: `ValueError` on opening a
remote file, the OS-level missing-file error, and `ValueError` on
querying the size of a remote file with no declared size. -/
inductive FsError where
  | remoteUnsupported (msg : String)
  | notFound (p : String)
  | remoteSizeUnknown (msg : String)
deriving DecidableEq, Repr

deriving instance DecidableEq for Except

/-- An explicit finite filesystem: regular files with sizes, and
directories. -/
structure FS where
  files : List (String × Nat)
  dirs : List String
deriving DecidableEq, Repr

def fsExists (fs : FS) (p : String) : Bool :=
  (dictGet? fs.files p).isSome || fs.dirs.contains p

def fsIsfile (fs : FS) (p : String) : Bool :=
  (dictGet? fs.files p).isSome

def fsIsdir (fs : FS) (p : String) : Bool :=
  fs.dirs.contains p

/-- `os.stat(p).st_size` (via `StdFsAccess.size`): fails when `p` names
no regular file. -/
def fsSize (fs : FS) (p : String) : Except FsError Nat :=
  match dictGet? fs.files p with
  | some n => .ok n
  | none => .error (.notFound p)

/-- `StdFsAccess.open`: succeeds exactly on existing regular files. -/
def fsOpen (fs : FS) (p : String) (mode : String) : Except FsError Unit :=
  if fsIsfile fs p then .ok () else .error (.notFound p)

/-- `StdFsAccess.glob` restricted to literal patterns (the embedding
only needs the LFN branch of `DiracReplicaMapFsAccess.glob`, which
never reaches the parent's pattern matching). -/
def fsGlob (fs : FS) (pat : String) : List String :=
  if fsExists fs pat then [pat] else []

/-- `DiracReplicaMapFsAccess._resolve_lfn`: strip the `LFN:` marker,
look the key up in the replica map; with a first replica, return its
`path` for a `file`-scheme URL (local) or its full rendering (remote);
with no entry or no replicas, fall back to the bare key, assumed
local. -/
def resolve_lfn (rm : ReplicaMap) (lfn : String) : String × Bool :=
  let clean_lfn := stripLfnMarker lfn
  match dictGet? rm clean_lfn with
  | some entry =>
      match entry.replicas with
      | r :: _ =>
          let is_remote := r.url.scheme ≠ "file"
          (if is_remote then r.url.full else (r.url.path.getD ""), is_remote)
      | [] => (clean_lfn, false)
  | none => (clean_lfn, false)

/-- `DiracReplicaMapFsAccess.glob`. -/
def dirac_glob (rm : ReplicaMap) (fs : FS) (pat : String) : List String :=
  if strStarts pat "LFN:" then
    let (resolved, is_remote) := resolve_lfn rm pat
    if is_remote then [pat]
    else if fsExists fs resolved then [pat]
    else []
  else fsGlob fs pat

/-- `DiracReplicaMapFsAccess.open`. -/
def dirac_open (rm : ReplicaMap) (fs : FS) (fn : String) (mode : String) :
    Except FsError Unit :=
  if strStarts fn "LFN:" then
    let (resolved, is_remote) := resolve_lfn rm fn
    if is_remote then .error (.remoteUnsupported resolved)
    else fsOpen fs resolved mode
  else fsOpen fs fn mode

/-- `DiracReplicaMapFsAccess.exists`. -/
def dirac_exists (rm : ReplicaMap) (fs : FS) (fn : String) : Bool :=
  if strStarts fn "LFN:" then
    let (resolved, is_remote) := resolve_lfn rm fn
    if is_remote then true else fsExists fs resolved
  else fsExists fs fn

/-- `DiracReplicaMapFsAccess.isfile`. -/
def dirac_isfile (rm : ReplicaMap) (fs : FS) (fn : String) : Bool :=
  if strStarts fn "LFN:" then
    let (resolved, is_remote) := resolve_lfn rm fn
    if is_remote then true else fsIsfile fs resolved
  else fsIsfile fs fn

/-- `DiracReplicaMapFsAccess.isdir`: an `LFN:` path is never a
directory. -/
def dirac_isdir (rm : ReplicaMap) (fs : FS) (fn : String) : Bool :=
  if strStarts fn "LFN:" then false else fsIsdir fs fn

/-- `DiracReplicaMapFsAccess.size`: prefer the catalog entry's declared
`size_bytes`; otherwise resolve, failing on remote replicas and
delegating to the filesystem on local ones. -/
def dirac_size (rm : ReplicaMap) (fs : FS) (fn : String) : Except FsError Nat :=
  if strStarts fn "LFN:" then
    let clean_lfn := stripLfnMarker fn
    match (dictGet? rm clean_lfn).bind MapEntry.size_bytes with
    | some n => .ok n
    | none =>
        let (resolved, is_remote) := resolve_lfn rm fn
        if is_remote then .error (.remoteSizeUnknown resolved)
        else fsSize fs resolved
  else fsSize fs fn

/-! ## Step interception controller (`executor.py`) -/

/-- Core merge loop of `DiracExecutor._update_replica_map_from_job`:
fold over the step-local catalog, skipping identical entries,
overwriting changed ones (recorded in `updated_entries`) and appending
absent ones (recorded in `new_entries`). -/
def mergeAux : ReplicaMap → List (String × MapEntry) → List String → List String →
    ReplicaMap × List String × List String
  | g, [], new_entries, updated_entries => (g, new_entries, updated_entries)
  | g, (lfn, entry) :: rest, new_entries, updated_entries =>
      match dictGet? g lfn with
      | some existing_entry =>
          if existing_entry = entry then mergeAux g rest new_entries updated_entries
          else mergeAux (dictSet g lfn entry) rest new_entries (updated_entries ++ [lfn])
      | none => mergeAux (dictSet g lfn entry) rest (new_entries ++ [lfn]) updated_entries

/-- `merge_from`: merge a step-local catalog `s` into the global
catalog `g`, reporting the new and updated LFNs. -/
def merge_from (g s : ReplicaMap) : ReplicaMap × List String × List String :=
  mergeAux g s [] []

/-- The sub-catalog dict comprehension in
`DiracExecutor._prepare_job_replica_map`: keep exactly the global
entries whose LFN is among the step's requested LFNs. -/
def filterRM (g : ReplicaMap) (step_lfns : List String) : ReplicaMap :=
  g.filter (fun p => step_lfns.contains p.1)

/-- `DiracExecutor._prepare_job_replica_map`, reduced to the step
replica map it binds and whether a missing-inputs warning was logged
(the second component). -/
def prepare_job_replica_map (global_map : Option ReplicaMap) (step_lfns : List String) :
    ReplicaMap × Bool :=
  if step_lfns ≠ [] ∧ global_map.isSome then
    let step_replica_map := filterRM (global_map.getD []) step_lfns
    if 0 < step_replica_map.length then (step_replica_map, false) else ([], true)
  else if step_lfns ≠ [] then ([], true)
  else ([], false)

/-- CWL job-input values as scanned by
`DiracExecutor._extract_lfns_from_inputs`: strings, dicts (records and
`File` objects), arrays, and other scalars. -/
inductive CwlValue where
  | str (s : String)
  | dict (fields : List (String × CwlValue))
  | arr (items : List CwlValue)
  | other
deriving Repr

/-- `obj.get(field, "")`, coerced to the string the code immediately
probes with `.startswith`; CWL `path`/`location` fields are strings. -/
def fieldStr (fields : List (String × CwlValue)) (name : String) : String :=
  match dictGet? fields name with
  | some (.str s) => s
  | _ => ""

/-- `"class" in obj and obj["class"] == "File"`. -/
def isFileDict (fields : List (String × CwlValue)) : Bool :=
  match dictGet? fields "class" with
  | some (.str s) => s == "File"
  | _ => false

/-- The `for field in ["path", "location"]`/`break` loop: the first of
`path`, `location` carrying the `LFN:` marker, stripped. -/
def fileLfn (fields : List (String × CwlValue)) : Option String :=
  let p := fieldStr fields "path"
  if strStarts p "LFN:" then some (p.drop 4)
  else
    let l := fieldStr fields "location"
    if strStarts l "LFN:" then some (l.drop 4) else none

mutual

/-- Inner `extract_recursive` of
`DiracExecutor._extract_lfns_from_inputs`, with the mutable `lfns`
list threaded as the accumulator.  A dict recognised as a `File` is
probed for an `LFN:`-marked `path`/`location` and NOT recursed into;
any other dict has its values scanned; arrays are scanned
elementwise. -/
def extractValue : CwlValue → List String → List String
  | .dict fields, acc =>
      if isFileDict fields then
        match fileLfn fields with
        | some lfn => if acc.contains lfn then acc else acc ++ [lfn]
        | none => acc
      else extractFields fields acc
  | .arr items, acc => extractItems items acc
  | .str _, acc => acc
  | .other, acc => acc

/-- Scan `obj.values()` in insertion order. -/
def extractFields : List (String × CwlValue) → List String → List String
  | [], acc => acc
  | (_, v) :: rest, acc => extractFields rest (extractValue v acc)

/-- Scan list items in order. -/
def extractItems : List CwlValue → List String → List String
  | [], acc => acc
  | v :: rest, acc => extractItems rest (extractValue v acc)

end

/-- `DiracExecutor._extract_lfns_from_inputs`: scan the whole job-order
dict. -/
def extract_lfns_from_inputs (job_order : List (String × CwlValue)) : List String :=
  extractValue (.dict job_order) []

/-! ## Staging adapter (`pathmapper.py`) -/

/-- The slice of a CWL file object read and written by
`DiracPathMapper.visit`: the `class` and `location` fields, the
optional `size` and `checksum` metadata it may attach, and the
declared `secondaryFiles`. -/
inductive CwlObj where
  | mk (cls : Option String) (location : String) (size : Option Nat)
      (checksum : Option String) (secondaryFiles : List CwlObj)
deriving Repr

def CwlObj.cls : CwlObj → Option String
  | .mk c _ _ _ _ => c

def CwlObj.location : CwlObj → String
  | .mk _ l _ _ _ => l

def CwlObj.size : CwlObj → Option Nat
  | .mk _ _ s _ _ => s

def CwlObj.checksum : CwlObj → Option String
  | .mk _ _ _ c _ => c

def CwlObj.secondaryFiles : CwlObj → List CwlObj
  | .mk _ _ _ _ s => s

/-- cwltool `MapperEnt`. -/
structure MapperEnt where
  resolved : String
  target : String
  type : String
  staged : Bool
deriving DecidableEq, Repr

/-- The `_pathmap` dict of `PathMapper`, keyed by source location. -/
abbrev PathMap := List (String × MapperEnt)

/-- The remote-scheme test of `DiracPathMapper.visit`:
`any(tgt.startswith(scheme) for scheme in ("root://", "xroot://",
"https://", "http://"))`. -/
def isRemoteScheme (tgt : String) : Bool :=
  strStarts tgt "root://" || strStarts tgt "xroot://" ||
    strStarts tgt "https://" || strStarts tgt "http://"

theorem sizeOf_lt_of_mem_secs {o : CwlObj} :
    ∀ cls loc size checksum secs, o = .mk cls loc size checksum secs →
      sizeOf secs < sizeOf o := by
  intro cls loc size checksum secs h
  subst h
  simp

mutual

/-- `DiracPathMapper.visit`: resolve an `LFN:`-located `File` through
the replica map; on success record an unstaged identity mapping to the
first replica's URL, opportunistically attach size/checksum metadata,
and process the declared secondary files; otherwise fall through to
the remote-URL branch and the parent class. -/
def visit (rm : ReplicaMap) (pm : PathMap) (obj : CwlObj) (copy staged : Bool) :
    PathMap × CwlObj :=
  match obj with
  | .mk cls tgt size checksum secs =>
    if strStarts tgt "LFN:" && (cls == some "File") then
      match dictGet? rm (tgt.drop 4) with
      | some entry =>
          match entry.replicas with
          | r :: _ =>
              let pfn := r.url.full
              let pm1 := dictSet pm tgt ⟨pfn, pfn, "File", false⟩
              let newSize :=
                match size with
                | some s => some s
                | none => entry.size_bytes
              let newChecksum :=
                match checksum with
                | some c => some c
                | none =>
                    match entry.checksum with
                    | some ck =>
                        match ck.adler32 with
                        | some a => some ("adler32$" ++ a)
                        | none => none
                    | none => none
              let res := visitlisting rm pm1 secs copy staged
              (res.1, .mk cls tgt newSize newChecksum res.2)
          | [] => visitNonLfn rm pm (.mk cls tgt size checksum secs) copy staged
      | none => visitNonLfn rm pm (.mk cls tgt size checksum secs) copy staged
    else visitNonLfn rm pm (.mk cls tgt size checksum secs) copy staged
termination_by (sizeOf obj, 2)

/-- The code of `DiracPathMapper.visit` after the LFN block: remote
protocol URLs are mapped to themselves unstaged; everything else is
delegated to the parent class. -/
def visitNonLfn (rm : ReplicaMap) (pm : PathMap) (obj : CwlObj) (copy staged : Bool) :
    PathMap × CwlObj :=
  match obj with
  | .mk cls tgt size checksum secs =>
    if (cls == some "File") && isRemoteScheme tgt then
      let pm1 := dictSet pm tgt ⟨tgt, tgt, "File", false⟩
      let res := visitlisting rm pm1 secs copy staged
      (res.1, .mk cls tgt size checksum res.2)
    else superVisit rm pm (.mk cls tgt size checksum secs) copy staged
termination_by (sizeOf obj, 1)

/-- Modelled from the spec: cwltool's `PathMapper.visit` (an external
dependency, not under `src/`) — the standard staging behaviour
inherited from the workflow engine: record a staging entry for the
object's location (staged per the flag; the staging target path is
abstracted as the location itself) and process the declared secondary
files recursively. -/
def superVisit (rm : ReplicaMap) (pm : PathMap) (obj : CwlObj) (copy staged : Bool) :
    PathMap × CwlObj :=
  match obj with
  | .mk cls tgt size checksum secs =>
    let pm1 := dictSet pm tgt ⟨tgt, tgt, cls.getD "File", staged⟩
    let res := visitlisting rm pm1 secs copy staged
    (res.1, .mk cls tgt size checksum res.2)
termination_by (sizeOf obj, 0)

/-- `PathMapper.visitlisting`: visit each object in order, threading
the path map. -/
def visitlisting (rm : ReplicaMap) (pm : PathMap) (objs : List CwlObj) (copy staged : Bool) :
    PathMap × List CwlObj :=
  match objs with
  | [] => (pm, [])
  | o :: rest =>
      let r1 := visit rm pm o copy staged
      let r2 := visitlisting rm r1.1 rest copy staged
      (r2.1, r1.2 :: r2.2)
termination_by (sizeOf objs, 3)

end

mutual

/-- All locations appearing in a file object and, recursively, in its
declared secondary files. -/
def objLocations : CwlObj → List String
  | .mk _ loc _ _ secs => loc :: listLocations secs

/-- All locations in a list of file objects. -/
def listLocations : List CwlObj → List String
  | [] => []
  | o :: rest => objLocations o ++ listLocations rest

end

/-! ## Final persistence (`__main__.py`) -/

/-- Outcome of the `cwltool_main(...)` call inside `main`: either a
process exit code, or a raised exception caught by the surrounding
`except Exception` handler. -/
inductive RunOutcome where
  | exitCode (n : Nat)
  | fatal (err : String)
deriving DecidableEq, Repr

/-- Tail of `main` in `__main__.py` after the workflow engine finishes:
on exit code `0` the final global replica map is written (best-effort)
whenever the executor holds one; on a non-zero exit code only the
failure report is printed; a raised engine error is caught, reported
and converted to `sys.exit(1)`.  Result: (final replica map written?,
process exit code). -/
def main_finalize (outcome : RunOutcome) (global_map : Option ReplicaMap) : Bool × Nat :=
  match outcome with
  | .exitCode n => if n = 0 then (global_map.isSome, 0) else (false, n)
  | .fatal _ => (false, 1)

/-! ## Catalog persistence (document form)

Modelled from the spec: the `ReplicaMap` pydantic model and its JSON
(de)serialization live in the external `diracx` package, not under
`src/`; §6 of the spec defines the persisted document: an object whose
keys are LFN strings, each value an object with optional `replicas`
(array of `{url, se}`), optional `size_bytes` and optional `checksum`
(`adler32`/`guid`). -/

/-- JSON documents. -/
inductive Json where
  | str (s : String)
  | num (n : Nat)
  | obj (fields : List (String × Json))
  | arr (items : List Json)
deriving Repr

/-- Modelled from the spec: a replica in document form — `url` is the
serialized URL string, `se` the optional storage endpoint. -/
structure DocReplica where
  url : String
  se : Option String
deriving DecidableEq, Repr

/-- Modelled from the spec: a catalog entry in document form. -/
structure DocEntry where
  replicas : List DocReplica
  size_bytes : Option Nat
  checksum : Option Checksum
deriving DecidableEq, Repr

/-- Modelled from the spec: the catalog in document form. -/
abbrev DocCatalog := List (String × DocEntry)

def serializeChecksum (c : Checksum) : Json :=
  .obj ((match c.adler32 with | some a => [("adler32", Json.str a)] | none => []) ++
    (match c.guid with | some g => [("guid", Json.str g)] | none => []))

def serializeReplica (r : DocReplica) : Json :=
  .obj ([("url", Json.str r.url)] ++
    (match r.se with | some s => [("se", Json.str s)] | none => []))

def serializeEntry (e : DocEntry) : Json :=
  .obj ([("replicas", Json.arr (e.replicas.map serializeReplica))] ++
    (match e.size_bytes with | some n => [("size_bytes", Json.num n)] | none => []) ++
    (match e.checksum with | some c => [("checksum", serializeChecksum c)] | none => []))

/-- Modelled from the spec: serialize a catalog to its JSON document
form, with deterministic field order and absent optional fields
omitted. -/
def serializeCatalog (c : DocCatalog) : Json :=
  .obj (c.map (fun p => (p.1, serializeEntry p.2)))

/-- Read an optional string field strictly: absent is fine, a present
non-string is a format error. -/
def jStrField? (fields : List (String × Json)) (name : String) : Option (Option String) :=
  match dictGet? fields name with
  | none => some none
  | some (.str s) => some (some s)
  | some _ => none

def deserializeChecksum : Json → Option Checksum
  | .obj fields => do
      let a ← jStrField? fields "adler32"
      let g ← jStrField? fields "guid"
      some ⟨a, g⟩
  | _ => none

def deserializeReplica : Json → Option DocReplica
  | .obj fields => do
      let u ← match dictGet? fields "url" with
        | some (.str s) => some s
        | _ => none
      let s ← jStrField? fields "se"
      some ⟨u, s⟩
  | _ => none

/-- Deserialize a replica array elementwise, failing on the first
malformed element. -/
def deserializeReplicas : List Json → Option (List DocReplica)
  | [] => some []
  | j :: rest => do
      let r ← deserializeReplica j
      let rs ← deserializeReplicas rest
      some (r :: rs)

def deserializeEntry : Json → Option DocEntry
  | .obj fields => do
      let rs ← match dictGet? fields "replicas" with
        | some (.arr items) => deserializeReplicas items
        | none => some []
        | some _ => none
      let sz ← match dictGet? fields "size_bytes" with
        | some (.num n) => some (some n)
        | none => some none
        | some _ => none
      let ck ← match dictGet? fields "checksum" with
        | some j => (deserializeChecksum j).map some
        | none => some none
      some ⟨rs, sz, ck⟩
  | _ => none

/-- Modelled from the spec: deserialize a catalog document; a malformed
document yields `none` (`CatalogFormatError`). -/
def deserializeEntries : List (String × Json) → Option DocCatalog
  | [] => some []
  | (k, j) :: rest => do
      let e ← deserializeEntry j
      let es ← deserializeEntries rest
      some ((k, e) :: es)

def deserializeCatalog : Json → Option DocCatalog
  | .obj fields => deserializeEntries fields
  | _ => none

/-! ## Merge lemmas -/

theorem mergeAux_untouched (s : List (String × MapEntry)) :
    ∀ (g : ReplicaMap) (new_entries updated_entries : List String) (k : String),
      dictGet? s k = none →
      dictGet? (mergeAux g s new_entries updated_entries).1 k = dictGet? g k := by
  induction s with
  | nil => intro g ne ue k _; rfl
  | cons hd rest ih =>
      intro g ne ue k hk
      obtain ⟨lfn, e⟩ := hd
      have hne : ¬ lfn = k := by
        intro h
        simp [dictGet?, h] at hk
      have hrest : dictGet? rest k = none := by
        simpa [dictGet?, hne] using hk
      have hkne : k ≠ lfn := fun h => hne h.symm
      simp only [mergeAux]
      cases hg : dictGet? g lfn with
      | some ex =>
          by_cases he : ex = e
          · simp only [if_pos he]
            exact ih g ne ue k hrest
          · simp only [if_neg he]
            rw [ih (dictSet g lfn e) ne (ue ++ [lfn]) k hrest]
            exact dictGet?_dictSet_ne g lfn k e hkne
      | none =>
          rw [ih (dictSet g lfn e) (ne ++ [lfn]) ue k hrest]
          exact dictGet?_dictSet_ne g lfn k e hkne

theorem mergeAux_keeps (s : List (String × MapEntry)) :
    ∀ (g : ReplicaMap) (new_entries updated_entries : List String) (k : String),
      (dictGet? g k).isSome →
      (dictGet? (mergeAux g s new_entries updated_entries).1 k).isSome := by
  induction s with
  | nil => intro g ne ue k h; exact h
  | cons hd rest ih =>
      intro g ne ue k h
      obtain ⟨lfn, e⟩ := hd
      simp only [mergeAux]
      cases hg : dictGet? g lfn with
      | some ex =>
          by_cases he : ex = e
          · simp only [if_pos he]; exact ih g ne ue k h
          · simp only [if_neg he]
            exact ih _ _ _ k (dictGet?_isSome_dictSet g lfn k e h)
      | none => exact ih _ _ _ k (dictGet?_isSome_dictSet g lfn k e h)

theorem mergeAux_reports (s : List (String × MapEntry)) :
    ∀ (g : ReplicaMap) (new_entries updated_entries : List String),
      ∃ n u,
        (mergeAux g s new_entries updated_entries).2.1 = new_entries ++ n ∧
        (mergeAux g s new_entries updated_entries).2.2 = updated_entries ++ u ∧
        (∀ k, k ∈ n → (dictGet? s k).isSome) ∧
        (∀ k, k ∈ u → (dictGet? s k).isSome) := by
  induction s with
  | nil =>
      intro g ne ue
      exact ⟨[], [], by simp [mergeAux], by simp [mergeAux], by simp, by simp⟩
  | cons hd rest ih =>
      intro g ne ue
      obtain ⟨lfn, e⟩ := hd
      have hmem : ∀ k, (dictGet? rest k).isSome → (dictGet? ((lfn, e) :: rest) k).isSome := by
        intro k hk
        by_cases h : lfn = k <;> simp [dictGet?, h, hk]
      simp only [mergeAux]
      cases hg : dictGet? g lfn with
      | some ex =>
          by_cases he : ex = e
          · simp only [if_pos he]
            obtain ⟨n, u, h1, h2, h3, h4⟩ := ih g ne ue
            exact ⟨n, u, h1, h2, fun k hk => hmem k (h3 k hk), fun k hk => hmem k (h4 k hk)⟩
          · simp only [if_neg he]
            obtain ⟨n, u, h1, h2, h3, h4⟩ := ih (dictSet g lfn e) ne (ue ++ [lfn])
            refine ⟨n, lfn :: u, h1, ?_, fun k hk => hmem k (h3 k hk), ?_⟩
            · rw [h2, List.append_assoc]; rfl
            · intro k hk
              rcases List.mem_cons.mp hk with h | h
              · subst h; simp [dictGet?]
              · exact hmem k (h4 k h)
      | none =>
          obtain ⟨n, u, h1, h2, h3, h4⟩ := ih (dictSet g lfn e) (ne ++ [lfn]) ue
          refine ⟨lfn :: n, u, ?_, h2, ?_, fun k hk => hmem k (h4 k hk)⟩
          · rw [h1, List.append_assoc]; rfl
          · intro k hk
            rcases List.mem_cons.mp hk with h | h
            · subst h; simp [dictGet?]
            · exact hmem k (h3 k h)

theorem dictGet?_eq_none_of_not_mem {α : Type} (m : List (String × α)) (k : String)
    (h : k ∉ m.map Prod.fst) : dictGet? m k = none := by
  induction m with
  | nil => rfl
  | cons hd tl ih =>
      obtain ⟨k', v⟩ := hd
      simp only [List.map_cons, List.mem_cons] at h
      push_neg at h
      have : ¬ k' = k := fun hh => h.1 hh.symm
      simp [dictGet?, this, ih h.2]

theorem mem_keys_of_isSome {α : Type} (m : List (String × α)) (k : String)
    (h : (dictGet? m k).isSome) : k ∈ m.map Prod.fst := by
  by_contra hc
  rw [dictGet?_eq_none_of_not_mem m k hc] at h
  simp at h

theorem mergeAux_cons_same (g : ReplicaMap) (rest : List (String × MapEntry))
    (ne ue : List String) (lfn : String) (e ex : MapEntry)
    (hg : dictGet? g lfn = some ex) (hex : ex = e) :
    mergeAux g ((lfn, e) :: rest) ne ue = mergeAux g rest ne ue := by
  simp [mergeAux, hg, hex]

theorem mergeAux_cons_diff (g : ReplicaMap) (rest : List (String × MapEntry))
    (ne ue : List String) (lfn : String) (e ex : MapEntry)
    (hg : dictGet? g lfn = some ex) (hex : ex ≠ e) :
    mergeAux g ((lfn, e) :: rest) ne ue =
      mergeAux (dictSet g lfn e) rest ne (ue ++ [lfn]) := by
  simp [mergeAux, hg, hex]

theorem mergeAux_cons_none (g : ReplicaMap) (rest : List (String × MapEntry))
    (ne ue : List String) (lfn : String) (e : MapEntry)
    (hg : dictGet? g lfn = none) :
    mergeAux g ((lfn, e) :: rest) ne ue =
      mergeAux (dictSet g lfn e) rest (ne ++ [lfn]) ue := by
  simp [mergeAux, hg]

theorem mergeAux_hit (s : List (String × MapEntry)) :
    ∀ (g : ReplicaMap) (new_entries updated_entries : List String) (k : String) (e : MapEntry),
      (s.map Prod.fst).Nodup → dictGet? s k = some e →
      dictGet? (mergeAux g s new_entries updated_entries).1 k = some e ∧
      (k ∈ (mergeAux g s new_entries updated_entries).2.1 ↔
        (k ∈ new_entries ∨ dictGet? g k = none)) ∧
      (k ∈ (mergeAux g s new_entries updated_entries).2.2 ↔
        (k ∈ updated_entries ∨ ∃ ex, dictGet? g k = some ex ∧ ex ≠ e)) := by
  induction s with
  | nil => intro g ne ue k e _ hs; simp [dictGet?] at hs
  | cons hd rest ih =>
      intro g ne ue k e hnd hs
      obtain ⟨lfn, e'⟩ := hd
      simp only [List.map_cons, List.nodup_cons] at hnd
      obtain ⟨hlfn, hndrest⟩ := hnd
      by_cases hk : lfn = k
      · subst hk
        have he' : e' = e := by simpa [dictGet?] using hs
        subst he'
        have hrest_none : dictGet? rest lfn = none :=
          dictGet?_eq_none_of_not_mem rest lfn hlfn
        have hnotin : ∀ (l : List String), (∀ k0, k0 ∈ l → (dictGet? rest k0).isSome) →
            lfn ∉ l := by
          intro l hl hin
          exact hlfn (mem_keys_of_isSome rest lfn (hl lfn hin))
        cases hg : dictGet? g lfn with
        | some ex =>
            by_cases hex : ex = e'
            · rw [mergeAux_cons_same g rest ne ue lfn e' ex hg hex]
              obtain ⟨n, u, h1, h2, h3, h4⟩ := mergeAux_reports rest g ne ue
              refine ⟨?_, ?_, ?_⟩
              · rw [mergeAux_untouched rest g ne ue lfn hrest_none, hg, hex]
              · rw [h1]
                simp [List.mem_append, hnotin n h3, hg]
              · rw [h2]
                subst hex
                simp [List.mem_append, hnotin u h4, hg]
            · rw [mergeAux_cons_diff g rest ne ue lfn e' ex hg hex]
              obtain ⟨n, u, h1, h2, h3, h4⟩ :=
                mergeAux_reports rest (dictSet g lfn e') ne (ue ++ [lfn])
              refine ⟨?_, ?_, ?_⟩
              · rw [mergeAux_untouched rest (dictSet g lfn e') ne (ue ++ [lfn]) lfn hrest_none]
                exact dictGet?_dictSet_self g lfn e'
              · rw [h1]
                simp [List.mem_append, hnotin n h3, hg]
              · rw [h2]
                constructor
                · intro _
                  exact Or.inr ⟨ex, rfl, hex⟩
                · intro _
                  simp [List.mem_append]
        | none =>
            rw [mergeAux_cons_none g rest ne ue lfn e' hg]
            obtain ⟨n, u, h1, h2, h3, h4⟩ :=
              mergeAux_reports rest (dictSet g lfn e') (ne ++ [lfn]) ue
            refine ⟨?_, ?_, ?_⟩
            · rw [mergeAux_untouched rest (dictSet g lfn e') (ne ++ [lfn]) ue lfn hrest_none]
              exact dictGet?_dictSet_self g lfn e'
            · rw [h1]
              simp [List.mem_append, hnotin n h3, hg]
            · rw [h2]
              simp [List.mem_append, hnotin u h4, hg]
      · have hkne : k ≠ lfn := fun h => hk h.symm
        have hrest : dictGet? rest k = some e := by
          simpa [dictGet?, hk] using hs
        cases hg : dictGet? g lfn with
        | some ex =>
            by_cases hex : ex = e'
            · rw [mergeAux_cons_same g rest ne ue lfn e' ex hg hex]
              exact ih g ne ue k e hndrest hrest
            · rw [mergeAux_cons_diff g rest ne ue lfn e' ex hg hex]
              obtain ⟨h1, h2, h3⟩ := ih (dictSet g lfn e') ne (ue ++ [lfn]) k e hndrest hrest
              rw [dictGet?_dictSet_ne g lfn k e' hkne] at h2
              rw [dictGet?_dictSet_ne g lfn k e' hkne] at h3
              refine ⟨h1, h2, ?_⟩
              rw [h3]
              simp [List.mem_append, hkne]
        | none =>
            rw [mergeAux_cons_none g rest ne ue lfn e' hg]
            obtain ⟨h1, h2, h3⟩ := ih (dictSet g lfn e') (ne ++ [lfn]) ue k e hndrest hrest
            rw [dictGet?_dictSet_ne g lfn k e' hkne] at h2
            rw [dictGet?_dictSet_ne g lfn k e' hkne] at h3
            refine ⟨h1, ?_, h3⟩
            rw [h2]
            simp [List.mem_append, hkne]

theorem isSome_of_mem_keys {α : Type} (m : List (String × α)) (k : String)
    (h : k ∈ m.map Prod.fst) : (dictGet? m k).isSome := by
  induction m with
  | nil => simp at h
  | cons hd tl ih =>
      obtain ⟨k', v⟩ := hd
      by_cases hk : k' = k
      · simp [dictGet?, hk]
      · have : k ∈ tl.map Prod.fst := by
          rcases List.mem_cons.mp h with h0 | h0
          · exact absurd h0.symm hk
          · exact h0
        simp [dictGet?, hk, ih this]

/-- Claim C1: merging a step-local catalog into the global catalog
(`merge_from`, the loop of `DiracExecutor._update_replica_map_from_job`)
never deletes a global entry; an LFN present in both with identical
entries is left unchanged and reported neither new nor updated; with
differing entries the step-local entry overwrites the global one and the
LFN is reported updated, not new; an LFN only in the step-local catalog
is added and reported new; an LFN only in the global catalog keeps its
value unchanged. -/
theorem claim_c1_merge (g s : ReplicaMap) (h : (s.map Prod.fst).Nodup) :
    (∀ k, (dictGet? g k).isSome → (dictGet? (merge_from g s).1 k).isSome) ∧
    (∀ k e, dictGet? g k = some e → dictGet? s k = some e →
      dictGet? (merge_from g s).1 k = some e ∧
      k ∉ (merge_from g s).2.1 ∧ k ∉ (merge_from g s).2.2) ∧
    (∀ k ex e, dictGet? g k = some ex → dictGet? s k = some e → ex ≠ e →
      dictGet? (merge_from g s).1 k = some e ∧
      k ∈ (merge_from g s).2.2 ∧ k ∉ (merge_from g s).2.1) ∧
    (∀ k e, dictGet? g k = none → dictGet? s k = some e →
      dictGet? (merge_from g s).1 k = some e ∧
      k ∈ (merge_from g s).2.1 ∧ k ∉ (merge_from g s).2.2) ∧
    (∀ k, dictGet? s k = none → dictGet? (merge_from g s).1 k = dictGet? g k) := by
  refine ⟨fun k hk => mergeAux_keeps s g [] [] k hk, ?_, ?_, ?_,
    fun k hk => mergeAux_untouched s g [] [] k hk⟩
  · intro k e hg hs
    obtain ⟨h1, h2, h3⟩ := mergeAux_hit s g [] [] k e h hs
    simp only [merge_from]
    refine ⟨h1, ?_, ?_⟩
    · rw [h2]; simp [hg]
    · rw [h3]; simp [hg]
  · intro k ex e hg hs hne
    obtain ⟨h1, h2, h3⟩ := mergeAux_hit s g [] [] k e h hs
    simp only [merge_from]
    refine ⟨h1, ?_, ?_⟩
    · rw [h3]; exact Or.inr ⟨ex, hg, hne⟩
    · rw [h2]; simp [hg]
  · intro k e hg hs
    obtain ⟨h1, h2, h3⟩ := mergeAux_hit s g [] [] k e h hs
    simp only [merge_from]
    refine ⟨h1, ?_, ?_⟩
    · rw [h2]; exact Or.inr hg
    · rw [h3]; simp [hg]

/-- Concrete global catalog exercising every merge case. -/
def mergeG : ReplicaMap :=
  [("a", ⟨[], some 1, none⟩), ("b", ⟨[], some 2, none⟩), ("c", ⟨[], some 3, none⟩)]

/-- Concrete step-local catalog: `"b"` identical, `"c"` conflicting,
`"d"` new. -/
def mergeS : ReplicaMap :=
  [("b", ⟨[], some 2, none⟩), ("c", ⟨[], some 33, none⟩), ("d", ⟨[], some 4, none⟩)]

theorem claim_c1_merge_witness :
    (mergeS.map Prod.fst).Nodup ∧
    (dictGet? (merge_from mergeG mergeS).1 "a").isSome ∧
    (dictGet? (merge_from mergeG mergeS).1 "b" = some ⟨[], some 2, none⟩ ∧
      "b" ∉ (merge_from mergeG mergeS).2.1 ∧ "b" ∉ (merge_from mergeG mergeS).2.2) ∧
    (dictGet? (merge_from mergeG mergeS).1 "c" = some ⟨[], some 33, none⟩ ∧
      "c" ∈ (merge_from mergeG mergeS).2.2 ∧ "c" ∉ (merge_from mergeG mergeS).2.1) ∧
    (dictGet? (merge_from mergeG mergeS).1 "d" = some ⟨[], some 4, none⟩ ∧
      "d" ∈ (merge_from mergeG mergeS).2.1 ∧ "d" ∉ (merge_from mergeG mergeS).2.2) ∧
    dictGet? (merge_from mergeG mergeS).1 "a" = dictGet? mergeG "a" :=
  have hnd : (mergeS.map Prod.fst).Nodup := by decide
  ⟨hnd,
    (claim_c1_merge mergeG mergeS hnd).1 "a" (by decide),
    (claim_c1_merge mergeG mergeS hnd).2.1 "b" ⟨[], some 2, none⟩ (by decide) (by decide),
    (claim_c1_merge mergeG mergeS hnd).2.2.1 "c" ⟨[], some 3, none⟩ ⟨[], some 33, none⟩
      (by decide) (by decide) (by decide),
    (claim_c1_merge mergeG mergeS hnd).2.2.2.1 "d" ⟨[], some 4, none⟩ (by decide) (by decide),
    (claim_c1_merge mergeG mergeS hnd).2.2.2.2 "a" (by decide)⟩

/-- Lookup in the filtered sub-catalog. -/
theorem dictGet?_filterRM (g : ReplicaMap) (keys : List String) (k : String) :
    dictGet? (filterRM g keys) k = if keys.contains k then dictGet? g k else none := by
  induction g with
  | nil => by_cases h : keys.contains k <;> simp [filterRM, dictGet?, h]
  | cons hd tl ih =>
      obtain ⟨k0, v⟩ := hd
      have hstep : filterRM ((k0, v) :: tl) keys =
          if keys.contains k0 then (k0, v) :: filterRM tl keys else filterRM tl keys := by
        simp only [filterRM, List.filter_cons]
      rw [hstep]
      by_cases hk : k0 = k
      · subst hk
        by_cases hc : keys.contains k0
        · rw [if_pos hc, if_pos hc]
          simp [dictGet?]
        · rw [if_neg hc, if_neg hc, ih, if_neg hc]
      · by_cases hc : keys.contains k0
        · rw [if_pos hc]
          simp only [dictGet?, if_neg hk]
          rw [ih]
        · rw [if_neg hc, ih]
          by_cases hck : keys.contains k
          · rw [if_pos hck, if_pos hck]
            simp [dictGet?, hk]
          · rw [if_neg hck, if_neg hck]

/-- Claim C5: the step-scoped sub-catalog contains exactly the global
entries whose key is requested (absent requested keys are omitted, never
an error), and a step with LFN inputs none of which are in the global
catalog gets an empty sub-catalog together with a logged warning. -/
theorem claim_c5_filter (g : ReplicaMap) (keys : List String) :
    (∀ k, dictGet? (filterRM g keys) k =
      if keys.contains k then dictGet? g k else none) ∧
    (∀ step_lfns : List String, step_lfns ≠ [] →
      (∀ l ∈ step_lfns, dictGet? g l = none) →
      prepare_job_replica_map (some g) step_lfns = ([], true)) := by
  constructor
  · intro k
    exact dictGet?_filterRM g keys k
  · intro step_lfns hne habs
    have hfil : filterRM g step_lfns = [] := by
      rw [filterRM, List.filter_eq_nil_iff]
      intro p hp hc
      have hmem : p.1 ∈ step_lfns := by
        simpa using hc
      have h1 : (dictGet? g p.1).isSome :=
        isSome_of_mem_keys g p.1 (List.mem_map.mpr ⟨p, hp, rfl⟩)
      rw [habs p.1 hmem] at h1
      simp at h1
    simp [prepare_job_replica_map, hne, hfil]

/-- Concrete catalog for the filter witness. -/
def filtG : ReplicaMap := [("x", ⟨[], some 1, none⟩), ("y", ⟨[], some 2, none⟩)]

theorem claim_c5_filter_witness :
    (dictGet? (filterRM filtG ["x", "z"]) "x" =
      if (["x", "z"].contains "x") then dictGet? filtG "x" else none) ∧
    (dictGet? (filterRM filtG ["x", "z"]) "y" =
      if (["x", "z"].contains "y") then dictGet? filtG "y" else none) ∧
    (["missing"] ≠ ([] : List String)) ∧
    (∀ l ∈ ["missing"], dictGet? filtG l = none) ∧
    prepare_job_replica_map (some filtG) ["missing"] = ([], true) :=
  ⟨(claim_c5_filter filtG ["x", "z"]).1 "x",
    (claim_c5_filter filtG ["x", "z"]).1 "y",
    by decide, by decide,
    (claim_c5_filter filtG ["x", "z"]).2 ["missing"] (by decide) (by decide)⟩

/-! ## Path-resolution claims -/

/-- A remote catalog entry with declared size. -/
def remoteEntry : MapEntry :=
  ⟨[⟨⟨"root", some "/remote.dat", "root://server/remote.dat"⟩, some "CERN-SE"⟩], some 42, none⟩

/-- A remote catalog entry without declared size. -/
def nosizeEntry : MapEntry :=
  ⟨[⟨⟨"root", some "/nosize.dat", "root://server/nosize.dat"⟩, none⟩], none, none⟩

/-- Catalog with two remote entries. -/
def rmRemote : ReplicaMap := [("remote.dat", remoteEntry), ("nosize.dat", nosizeEntry)]

/-- The empty filesystem. -/
def fsEmpty : FS := ⟨[], []⟩

/-- Claim C3: for an `LFN:` path whose catalog entry's first replica has
a non-`file` scheme, `exists` returns true with no filesystem or network
access (the result is the same for every filesystem), `open` always
fails with the remote-access error, and `size` returns the entry's
declared `size_bytes` when present and fails when it is absent. -/
theorem claim_c3_remote (rm : ReplicaMap) (fn : String) (entry : MapEntry)
    (r : Replica) (rs : List Replica)
    (hpre : strStarts fn "LFN:" = true)
    (hent : dictGet? rm (stripLfnMarker fn) = some entry)
    (hrep : entry.replicas = r :: rs)
    (hscheme : r.url.scheme ≠ "file") :
    (∀ fs : FS, dirac_exists rm fs fn = true) ∧
    (∀ (fs : FS) (mode : String),
      dirac_open rm fs fn mode = .error (.remoteUnsupported r.url.full)) ∧
    (∀ (fs : FS) (n : Nat), entry.size_bytes = some n → dirac_size rm fs fn = .ok n) ∧
    (∀ fs : FS, entry.size_bytes = none →
      dirac_size rm fs fn = .error (.remoteSizeUnknown r.url.full)) := by
  have hres : resolve_lfn rm fn = (r.url.full, true) := by
    simp [resolve_lfn, hent, hrep, hscheme]
  refine ⟨?_, ?_, ?_, ?_⟩
  · intro fs
    simp [dirac_exists, hpre, hres]
  · intro fs mode
    simp [dirac_open, hpre, hres]
  · intro fs n hn
    simp [dirac_size, hpre, hent, hn]
  · intro fs hn
    simp [dirac_size, hpre, hent, hn, hres]

theorem claim_c3_remote_witness :
    dirac_exists rmRemote fsEmpty "LFN:remote.dat" = true ∧
    dirac_open rmRemote fsEmpty "LFN:remote.dat" "r" =
      .error (.remoteUnsupported "root://server/remote.dat") ∧
    dirac_size rmRemote fsEmpty "LFN:remote.dat" = .ok 42 ∧
    dirac_size rmRemote fsEmpty "LFN:nosize.dat" =
      .error (.remoteSizeUnknown "root://server/nosize.dat") :=
  ⟨(claim_c3_remote rmRemote "LFN:remote.dat" remoteEntry
      ⟨⟨"root", some "/remote.dat", "root://server/remote.dat"⟩, some "CERN-SE"⟩ []
      (by decide) (by decide) (by decide) (by decide)).1 fsEmpty,
    (claim_c3_remote rmRemote "LFN:remote.dat" remoteEntry
      ⟨⟨"root", some "/remote.dat", "root://server/remote.dat"⟩, some "CERN-SE"⟩ []
      (by decide) (by decide) (by decide) (by decide)).2.1 fsEmpty "r",
    (claim_c3_remote rmRemote "LFN:remote.dat" remoteEntry
      ⟨⟨"root", some "/remote.dat", "root://server/remote.dat"⟩, some "CERN-SE"⟩ []
      (by decide) (by decide) (by decide) (by decide)).2.2.1 fsEmpty 42 (by decide),
    (claim_c3_remote rmRemote "LFN:nosize.dat" nosizeEntry
      ⟨⟨"root", some "/nosize.dat", "root://server/nosize.dat"⟩, none⟩ []
      (by decide) (by decide) (by decide) (by decide)).2.2.2 fsEmpty (by decide)⟩

/-- Claim C10: for an `LFN:` path whose catalog entry's first replica
has a non-`file` scheme, `isfile` returns true with no filesystem or
network access (the result is the same for every filesystem). -/
theorem claim_c10_isfile_remote (rm : ReplicaMap) (fn : String) (entry : MapEntry)
    (r : Replica) (rs : List Replica)
    (hpre : strStarts fn "LFN:" = true)
    (hent : dictGet? rm (stripLfnMarker fn) = some entry)
    (hrep : entry.replicas = r :: rs)
    (hscheme : r.url.scheme ≠ "file") :
    ∀ fs : FS, dirac_isfile rm fs fn = true := by
  have hres : resolve_lfn rm fn = (r.url.full, true) := by
    simp [resolve_lfn, hent, hrep, hscheme]
  intro fs
  simp [dirac_isfile, hpre, hres]

theorem claim_c10_isfile_remote_witness :
    dirac_isfile rmRemote fsEmpty "LFN:remote.dat" = true :=
  claim_c10_isfile_remote rmRemote "LFN:remote.dat" remoteEntry
    ⟨⟨"root", some "/remote.dat", "root://server/remote.dat"⟩, some "CERN-SE"⟩ []
    (by decide) (by decide) (by decide) (by decide) fsEmpty

/-- A filesystem that happens to contain a file named like the bare
LFN key. -/
def fsBar : FS := ⟨[("bar.txt", 3)], []⟩

theorem claim_c2_counterexample :
    dirac_exists [] fsBar "LFN:bar.txt" = true ∧
    dirac_open [] fsBar "LFN:bar.txt" "r" = .ok () ∧
    dirac_exists [("bar.txt", ⟨[], none, none⟩)] fsBar "LFN:bar.txt" = true := by
  decide

/-- Claim C2 (amended): for an `LFN:` path whose key is absent from the
catalog, or present with an empty replica list, resolution falls back to
the bare key treated as a local path: `isdir` is always false, while
`exists` and `open` delegate to the ordinary filesystem at the bare key
— they report not-found (the OS error, not a dedicated resolution
failure) exactly when no local file exists at that path. -/
theorem claim_c2_unresolved (rm : ReplicaMap) (fn : String)
    (hpre : strStarts fn "LFN:" = true)
    (hmiss : dictGet? rm (stripLfnMarker fn) = none ∨
      ∃ entry, dictGet? rm (stripLfnMarker fn) = some entry ∧ entry.replicas = []) :
    (∀ fs : FS, dirac_isdir rm fs fn = false) ∧
    (∀ fs : FS, dirac_exists rm fs fn = fsExists fs (stripLfnMarker fn)) ∧
    (∀ (fs : FS) (mode : String),
      dirac_open rm fs fn mode = fsOpen fs (stripLfnMarker fn) mode) := by
  have hres : resolve_lfn rm fn = (stripLfnMarker fn, false) := by
    rcases hmiss with h | ⟨entry, h, hrep⟩
    · simp [resolve_lfn, h]
    · simp [resolve_lfn, h, hrep]
  refine ⟨?_, ?_, ?_⟩
  · intro fs
    simp [dirac_isdir, hpre]
  · intro fs
    simp [dirac_exists, hpre, hres]
  · intro fs mode
    simp [dirac_open, hpre, hres]

theorem claim_c2_unresolved_witness :
    dirac_isdir [] fsBar "LFN:bar.txt" = false ∧
    dirac_exists [] fsBar "LFN:bar.txt" = fsExists fsBar "bar.txt" ∧
    dirac_open [] fsEmpty "LFN:bar.txt" "r" = fsOpen fsEmpty "bar.txt" "r" :=
  ⟨(claim_c2_unresolved [] "LFN:bar.txt" (by decide) (Or.inl (by decide))).1 fsBar,
    by
      have h := (claim_c2_unresolved [] "LFN:bar.txt" (by decide) (Or.inl (by decide))).2.1 fsBar
      simpa using h,
    by
      have h := (claim_c2_unresolved [] "LFN:bar.txt" (by decide)
        (Or.inl (by decide))).2.2 fsEmpty "r"
      simpa using h⟩

/-- A local catalog entry with declared size differing from the on-disk
size. -/
def localEntryD : MapEntry :=
  ⟨[⟨⟨"file", some "/data/d", "file:///data/d"⟩, none⟩], some 5, none⟩

/-- A local catalog entry whose resolved path is a directory on disk. -/
def localEntryE : MapEntry :=
  ⟨[⟨⟨"file", some "/data/e", "file:///data/e"⟩, none⟩], none, none⟩

/-- Catalog with the two local entries. -/
def rmLocal : ReplicaMap := [("d", localEntryD), ("e", localEntryE)]

/-- Filesystem where `/data/d` is a 7-byte file and `/data/e` is a
directory. -/
def fsLocal : FS := ⟨[("/data/d", 7)], ["/data/e"]⟩

theorem claim_c4_counterexample :
    dirac_size rmLocal fsLocal "LFN:d" = .ok 5 ∧
    fsSize fsLocal "/data/d" = .ok 7 ∧
    dirac_isdir rmLocal fsLocal "LFN:e" = false ∧
    fsIsdir fsLocal "/data/e" = true := by
  decide

/-- Claim C4 (amended): for an `LFN:` path whose catalog entry's first
replica has `file` scheme, resolution returns the URL's path component
with the scheme stripped, and `exists`, `open` and `isfile` delegate to
the ordinary filesystem primitive on the resolved path; `size` delegates
only when the entry declares no `size_bytes` (otherwise the declared
catalog value is preferred over the on-disk size); `isdir` is always
false for `LFN:` paths regardless of the filesystem; `glob` returns the
original reference exactly when the resolved path exists. -/
theorem claim_c4_local (rm : ReplicaMap) (fn : String) (entry : MapEntry)
    (r : Replica) (rs : List Replica)
    (hpre : strStarts fn "LFN:" = true)
    (hent : dictGet? rm (stripLfnMarker fn) = some entry)
    (hrep : entry.replicas = r :: rs)
    (hscheme : r.url.scheme = "file") :
    resolve_lfn rm fn = (r.url.path.getD "", false) ∧
    (∀ fs : FS, dirac_exists rm fs fn = fsExists fs (r.url.path.getD "")) ∧
    (∀ (fs : FS) (mode : String),
      dirac_open rm fs fn mode = fsOpen fs (r.url.path.getD "") mode) ∧
    (∀ fs : FS, dirac_isfile rm fs fn = fsIsfile fs (r.url.path.getD "")) ∧
    (∀ fs : FS, entry.size_bytes = none →
      dirac_size rm fs fn = fsSize fs (r.url.path.getD "")) ∧
    (∀ (fs : FS) (n : Nat), entry.size_bytes = some n → dirac_size rm fs fn = .ok n) ∧
    (∀ fs : FS, dirac_isdir rm fs fn = false) ∧
    (∀ fs : FS, dirac_glob rm fs fn =
      if fsExists fs (r.url.path.getD "") then [fn] else []) := by
  have hres : resolve_lfn rm fn = (r.url.path.getD "", false) := by
    simp [resolve_lfn, hent, hrep, hscheme]
  refine ⟨hres, ?_, ?_, ?_, ?_, ?_, ?_, ?_⟩
  · intro fs
    simp [dirac_exists, hpre, hres]
  · intro fs mode
    simp [dirac_open, hpre, hres]
  · intro fs
    simp [dirac_isfile, hpre, hres]
  · intro fs hn
    simp [dirac_size, hpre, hent, hn, hres]
  · intro fs n hn
    simp [dirac_size, hpre, hent, hn]
  · intro fs
    simp [dirac_isdir, hpre]
  · intro fs
    simp [dirac_glob, hpre, hres]

theorem claim_c4_local_witness :
    resolve_lfn rmLocal "LFN:e" = ("/data/e", false) ∧
    dirac_exists rmLocal fsLocal "LFN:e" = fsExists fsLocal "/data/e" ∧
    dirac_open rmLocal fsLocal "LFN:e" "r" = fsOpen fsLocal "/data/e" "r" ∧
    dirac_size rmLocal fsLocal "LFN:e" = fsSize fsLocal "/data/e" ∧
    dirac_size rmLocal fsLocal "LFN:d" = .ok 5 ∧
    dirac_isdir rmLocal fsLocal "LFN:e" = false ∧
    dirac_glob rmLocal fsLocal "LFN:e" =
      if fsExists fsLocal "/data/e" then ["LFN:e"] else [] :=
  have hE := claim_c4_local rmLocal "LFN:e" localEntryE
    ⟨⟨"file", some "/data/e", "file:///data/e"⟩, none⟩ []
    (by decide) (by decide) (by decide) (by decide)
  have hD := claim_c4_local rmLocal "LFN:d" localEntryD
    ⟨⟨"file", some "/data/d", "file:///data/d"⟩, none⟩ []
    (by decide) (by decide) (by decide) (by decide)
  ⟨hE.1, hE.2.1 fsLocal, hE.2.2.1 fsLocal "r", hE.2.2.2.2.1 fsLocal (by decide),
    hD.2.2.2.2.2.1 fsLocal 5 (by decide), hE.2.2.2.2.2.2.1 fsLocal,
    hE.2.2.2.2.2.2.2 fsLocal⟩

/-! ## Final persistence claims -/

theorem claim_c7_counterexample :
    main_finalize (.exitCode 1) (some mergeG) = (false, 1) ∧
    main_finalize (.fatal "engine aborted") (some mergeG) = (false, 1) := by
  decide

/-- Claim C7 (amended): the final catalog snapshot is persisted only
when the workflow run succeeds (exit code 0) and the executor holds a
map; on a failing exit code no write is attempted and the exit code is
passed through; on a fatal engine error no write is attempted either and
the error is reported and converted to exit code 1 instead of being
re-raised. -/
theorem claim_c7_final_persistence (g : Option ReplicaMap) :
    main_finalize (.exitCode 0) g = (g.isSome, 0) ∧
    (∀ n : Nat, n ≠ 0 → main_finalize (.exitCode n) g = (false, n)) ∧
    (∀ err : String, main_finalize (.fatal err) g = (false, 1)) := by
  refine ⟨by simp [main_finalize], ?_, fun err => by simp [main_finalize]⟩
  intro n hn
  simp [main_finalize, hn]

theorem claim_c7_final_persistence_witness :
    main_finalize (.exitCode 0) (some mergeG) = ((some mergeG).isSome, 0) ∧
    main_finalize (.exitCode 3) (some mergeG) = (false, 3) ∧
    main_finalize (.fatal "boom") (some mergeG) = (false, 1) :=
  ⟨(claim_c7_final_persistence (some mergeG)).1,
    (claim_c7_final_persistence (some mergeG)).2.1 3 (by decide),
    (claim_c7_final_persistence (some mergeG)).2.2 "boom"⟩

/-! ## Serialization round-trip -/

theorem deserializeChecksum_serializeChecksum (c : Checksum) :
    deserializeChecksum (serializeChecksum c) = some c := by
  obtain ⟨a, g⟩ := c
  cases a <;> cases g <;>
    simp [serializeChecksum, deserializeChecksum, jStrField?, dictGet?]

theorem deserializeReplica_serializeReplica (r : DocReplica) :
    deserializeReplica (serializeReplica r) = some r := by
  obtain ⟨u, s⟩ := r
  cases s <;>
    simp [serializeReplica, deserializeReplica, jStrField?, dictGet?]

theorem deserializeReplicas_map (l : List DocReplica) :
    deserializeReplicas (l.map serializeReplica) = some l := by
  induction l with
  | nil => rfl
  | cons hd tl ih =>
      simp [deserializeReplicas, deserializeReplica_serializeReplica, ih]

theorem deserializeEntry_serializeEntry (e : DocEntry) :
    deserializeEntry (serializeEntry e) = some e := by
  obtain ⟨rs, sz, ck⟩ := e
  cases sz <;> cases ck <;>
    simp [serializeEntry, deserializeEntry, dictGet?, deserializeReplicas_map,
      deserializeChecksum_serializeChecksum]

/-- Claim C9: deserializing the serialized form of any catalog — the
empty catalog, entries with empty replica lists, entries with all
optional fields absent — yields the catalog back. -/
theorem claim_c9_roundtrip (c : DocCatalog) :
    deserializeCatalog (serializeCatalog c) = some c := by
  induction c with
  | nil => rfl
  | cons hd tl ih =>
      obtain ⟨k, e⟩ := hd
      simp only [serializeCatalog, deserializeCatalog, List.map_cons] at *
      simp [deserializeEntries, deserializeEntry_serializeEntry, ih]

/-! ## LFN extraction claims -/

/-- `OccursIn v x`: the value `v` occurs somewhere in the arbitrarily
nested structure `x` (descending through every dict field and array
element, including the fields of `File` objects). -/
inductive OccursIn : CwlValue → CwlValue → Prop where
  | here (v : CwlValue) : OccursIn v v
  | dict {fields : List (String × CwlValue)} {v w : CwlValue} (k : String)
      (hmem : (k, w) ∈ fields) (h : OccursIn v w) : OccursIn v (.dict fields)
  | arr {items : List CwlValue} {v w : CwlValue}
      (hmem : w ∈ items) (h : OccursIn v w) : OccursIn v (.arr items)

/-- `ReachNF x v`: `v` is reachable from `x` descending through dict
fields and array elements without entering a dict recognised as a
`File` object (`v` itself may be one). -/
inductive ReachNF : CwlValue → CwlValue → Prop where
  | here (v : CwlValue) : ReachNF v v
  | dict {fields : List (String × CwlValue)} {v w : CwlValue} (k : String)
      (hf : isFileDict fields = false) (hmem : (k, w) ∈ fields)
      (h : ReachNF w v) : ReachNF (.dict fields) v
  | arr {items : List CwlValue} {v w : CwlValue}
      (hmem : w ∈ items) (h : ReachNF w v) : ReachNF (.arr items) v

mutual

/-- Accumulated LFNs are never dropped by the scan. -/
theorem extractValue_mono (v : CwlValue) :
    ∀ (acc : List String) (x : String), x ∈ acc → x ∈ extractValue v acc := by
  cases v with
  | dict fields =>
      intro acc x hx
      by_cases hf : isFileDict fields
      · cases hl : fileLfn fields with
        | some l =>
            by_cases hc : l ∈ acc
            · simp [extractValue, hf, hl, hc, hx]
            · simp [extractValue, hf, hl, hc, List.mem_append, hx]
        | none => simpa [extractValue, hf, hl] using hx
      · have hf' : isFileDict fields = false := by simpa using hf
        simp only [extractValue, hf', Bool.false_eq_true, if_false]
        exact extractFields_mono fields acc x hx
  | arr items =>
      intro acc x hx
      simp only [extractValue]
      exact extractItems_mono items acc x hx
  | str s => intro acc x hx; simpa [extractValue] using hx
  | other => intro acc x hx; simpa [extractValue] using hx
termination_by (sizeOf v, 1)

theorem extractFields_mono (fs : List (String × CwlValue)) :
    ∀ (acc : List String) (x : String), x ∈ acc → x ∈ extractFields fs acc := by
  cases fs with
  | nil => intro acc x hx; simpa [extractFields] using hx
  | cons hd rest =>
      intro acc x hx
      obtain ⟨k, v⟩ := hd
      simp only [extractFields]
      exact extractFields_mono rest (extractValue v acc) x (extractValue_mono v acc x hx)
termination_by (sizeOf fs, 2)

theorem extractItems_mono (vs : List CwlValue) :
    ∀ (acc : List String) (x : String), x ∈ acc → x ∈ extractItems vs acc := by
  cases vs with
  | nil => intro acc x hx; simpa [extractItems] using hx
  | cons v rest =>
      intro acc x hx
      simp only [extractItems]
      exact extractItems_mono rest (extractValue v acc) x (extractValue_mono v acc x hx)
termination_by (sizeOf vs, 2)

end

/-- If some field value always yields `l`, the whole field scan yields
`l`. -/
theorem extractFields_hit (w : CwlValue) (l : String)
    (hw : ∀ acc, l ∈ extractValue w acc) :
    ∀ (fs : List (String × CwlValue)) (k : String) (acc : List String),
      (k, w) ∈ fs → l ∈ extractFields fs acc := by
  intro fs
  induction fs with
  | nil => intro k acc h; simp at h
  | cons hd rest ih =>
      intro k acc h
      obtain ⟨k0, v0⟩ := hd
      rcases List.mem_cons.mp h with h0 | h0
      · obtain ⟨hk, hv⟩ := Prod.ext_iff.mp h0
        simp only [extractFields]
        subst hv
        exact extractFields_mono rest (extractValue w acc) l (hw acc)
      · simp only [extractFields]
        exact ih k (extractValue v0 acc) h0

/-- If some array element always yields `l`, the whole array scan
yields `l`. -/
theorem extractItems_hit (w : CwlValue) (l : String)
    (hw : ∀ acc, l ∈ extractValue w acc) :
    ∀ (vs : List CwlValue) (acc : List String), w ∈ vs → l ∈ extractItems vs acc := by
  intro vs
  induction vs with
  | nil => intro acc h; simp at h
  | cons v0 rest ih =>
      intro acc h
      rcases List.mem_cons.mp h with h0 | h0
      · simp only [extractItems]
        subst h0
        exact extractItems_mono rest (extractValue w acc) l (hw acc)
      · simp only [extractItems]
        exact ih (extractValue v0 acc) h0

/-- Every `File` object reachable without entering another `File` and
carrying an `LFN:`-marked `path`/`location` is found by the scan. -/
theorem reachNF_extract (v tgt : CwlValue) (hreach : ReachNF v tgt) :
    ∀ (fields : List (String × CwlValue)) (l : String),
      tgt = .dict fields → isFileDict fields = true → fileLfn fields = some l →
      ∀ acc, l ∈ extractValue v acc := by
  induction hreach with
  | here w =>
      intro fields l ht hfile hlfn acc
      subst ht
      by_cases hc : l ∈ acc
      · simp [extractValue, hfile, hlfn, hc]
      · simp [extractValue, hfile, hlfn, hc, List.mem_append]
  | dict k hf hmem h ih =>
      intro fields l ht hfile hlfn acc
      simp only [extractValue, hf, Bool.false_eq_true, if_false]
      exact extractFields_hit _ l (fun acc0 => ih fields l ht hfile hlfn acc0) _ k acc hmem
  | arr hmem h ih =>
      intro fields l ht hfile hlfn acc
      simp only [extractValue]
      exact extractItems_hit _ l (fun acc0 => ih fields l ht hfile hlfn acc0) _ acc hmem

/-- A secondary `File` carrying an LFN path, nested inside another
`File` object. -/
def secFile : CwlValue := .dict [("class", .str "File"), ("path", .str "LFN:y")]

/-- A `File` object with a local path and `secFile` among its declared
`secondaryFiles`. -/
def mainFile : CwlValue := .dict [("class", .str "File"), ("path", .str "/local/x"),
  ("secondaryFiles", .arr [secFile])]

/-- A job order containing `mainFile`. -/
def joCE : List (String × CwlValue) := [("f", mainFile)]

theorem claim_c8_counterexample :
    OccursIn secFile (.dict joCE) ∧
    isFileDict [("class", .str "File"), ("path", .str "LFN:y")] = true ∧
    fileLfn [("class", .str "File"), ("path", .str "LFN:y")] = some "y" ∧
    extract_lfns_from_inputs joCE = [] := by
  refine ⟨?_, by decide, by decide, by decide⟩
  show OccursIn secFile (.dict [("f", mainFile)])
  refine OccursIn.dict "f" (List.mem_cons_self _ _) ?_
  show OccursIn secFile (.dict [("class", .str "File"), ("path", .str "/local/x"),
    ("secondaryFiles", .arr [secFile])])
  refine OccursIn.dict "secondaryFiles"
    (List.Mem.tail _ (List.Mem.tail _ (List.mem_cons_self _ _))) ?_
  exact OccursIn.arr (List.mem_cons_self _ _) (OccursIn.here _)

/-- Claim C8 (amended): the set of LFNs extracted from a step's declared
inputs contains the prefix-stripped key of every file-typed value whose
`path` or `location` carries the `LFN:` marker and which is reachable in
the nested input structure without descending into another `File`
object; values nested inside a recognised `File` (such as its
`secondaryFiles`) are not scanned. -/
theorem claim_c8_extract (job_order : List (String × CwlValue))
    (fields : List (String × CwlValue)) (l : String)
    (hreach : ReachNF (.dict job_order) (.dict fields))
    (hfile : isFileDict fields = true)
    (hlfn : fileLfn fields = some l) :
    l ∈ extract_lfns_from_inputs job_order :=
  reachNF_extract (.dict job_order) (.dict fields) hreach fields l rfl hfile hlfn []

/-- A job order whose LFN `File` sits inside an array, not inside
another `File`. -/
def joW : List (String × CwlValue) :=
  [("g", .arr [.dict [("class", .str "File"), ("location", .str "LFN:z")]])]

theorem claim_c8_extract_witness :
    "z" ∈ extract_lfns_from_inputs joW :=
  claim_c8_extract joW [("class", .str "File"), ("location", .str "LFN:z")] "z"
    (ReachNF.dict "g" (by decide) (List.mem_cons_self _ _)
      (ReachNF.arr (List.mem_cons_self _ _) (ReachNF.here _)))
    (by decide) (by decide)

/-! ## Staging-adapter lemmas -/

theorem isSome_dictGet?_dictSet_self {α : Type} (m : List (String × α)) (k : String) (v : α) :
    (dictGet? (dictSet m k v) k).isSome := by
  rw [dictGet?_dictSet_self]
  rfl

mutual

/-- `visit` never removes a path-map entry. -/
theorem visit_mono (rm : ReplicaMap) (pm : PathMap) (obj : CwlObj) (c s : Bool)
    (loc : String) (h : (dictGet? pm loc).isSome) :
    (dictGet? (visit rm pm obj c s).1 loc).isSome := by
  obtain ⟨cls, tgt, size, ck, secs⟩ := obj
  rw [visit]
  split
  · split
    · split
      · exact visitlisting_mono rm _ secs c s loc
          (dictGet?_isSome_dictSet pm tgt loc _ h)
      · exact visitNonLfn_mono rm pm (.mk cls tgt size ck secs) c s loc h
    · exact visitNonLfn_mono rm pm (.mk cls tgt size ck secs) c s loc h
  · exact visitNonLfn_mono rm pm (.mk cls tgt size ck secs) c s loc h
termination_by (sizeOf obj, 2)

/-- The post-LFN part of `visit` never removes a path-map entry. -/
theorem visitNonLfn_mono (rm : ReplicaMap) (pm : PathMap) (obj : CwlObj) (c s : Bool)
    (loc : String) (h : (dictGet? pm loc).isSome) :
    (dictGet? (visitNonLfn rm pm obj c s).1 loc).isSome := by
  obtain ⟨cls, tgt, size, ck, secs⟩ := obj
  rw [visitNonLfn]
  split
  · exact visitlisting_mono rm _ secs c s loc
      (dictGet?_isSome_dictSet pm tgt loc _ h)
  · exact superVisit_mono rm pm (.mk cls tgt size ck secs) c s loc h
termination_by (sizeOf obj, 1)

/-- The parent staging step never removes a path-map entry. -/
theorem superVisit_mono (rm : ReplicaMap) (pm : PathMap) (obj : CwlObj) (c s : Bool)
    (loc : String) (h : (dictGet? pm loc).isSome) :
    (dictGet? (superVisit rm pm obj c s).1 loc).isSome := by
  obtain ⟨cls, tgt, size, ck, secs⟩ := obj
  rw [superVisit]
  simp only []
  exact visitlisting_mono rm _ secs c s loc (dictGet?_isSome_dictSet pm tgt loc _ h)
termination_by (sizeOf obj, 0)

/-- `visitlisting` never removes a path-map entry. -/
theorem visitlisting_mono (rm : ReplicaMap) (pm : PathMap) (objs : List CwlObj) (c s : Bool)
    (loc : String) (h : (dictGet? pm loc).isSome) :
    (dictGet? (visitlisting rm pm objs c s).1 loc).isSome := by
  cases objs with
  | nil => simpa [visitlisting] using h
  | cons o rest =>
      rw [visitlisting]
      simp only []
      exact visitlisting_mono rm _ rest c s loc (visit_mono rm pm o c s loc h)
termination_by (sizeOf objs, 3)

end

mutual

/-- `visit` leaves path-map entries at locations outside the object's
tree unchanged. -/
theorem visit_untouched (rm : ReplicaMap) (pm : PathMap) (obj : CwlObj) (c s : Bool)
    (loc : String) :
    loc ∉ objLocations obj → dictGet? (visit rm pm obj c s).1 loc = dictGet? pm loc := by
  obtain ⟨cls, tgt, size, ck, secs⟩ := obj
  intro h
  have hne : loc ≠ tgt := by
    intro hloc
    exact h (by simp [objLocations, hloc])
  have hsecs : loc ∉ listLocations secs := by
    intro hloc
    exact h (by simp [objLocations, hloc])
  rw [visit]
  split
  · split
    · split
      · exact (visitlisting_untouched rm _ secs c s loc hsecs).trans
          (dictGet?_dictSet_ne pm tgt loc _ hne)
      · exact visitNonLfn_untouched rm pm (.mk cls tgt size ck secs) c s loc h
    · exact visitNonLfn_untouched rm pm (.mk cls tgt size ck secs) c s loc h
  · exact visitNonLfn_untouched rm pm (.mk cls tgt size ck secs) c s loc h
termination_by (sizeOf obj, 2)

/-- The post-LFN part of `visit` leaves outside locations unchanged. -/
theorem visitNonLfn_untouched (rm : ReplicaMap) (pm : PathMap) (obj : CwlObj) (c s : Bool)
    (loc : String) :
    loc ∉ objLocations obj → dictGet? (visitNonLfn rm pm obj c s).1 loc = dictGet? pm loc := by
  obtain ⟨cls, tgt, size, ck, secs⟩ := obj
  intro h
  have hne : loc ≠ tgt := by
    intro hloc
    exact h (by simp [objLocations, hloc])
  have hsecs : loc ∉ listLocations secs := by
    intro hloc
    exact h (by simp [objLocations, hloc])
  rw [visitNonLfn]
  split
  · exact (visitlisting_untouched rm _ secs c s loc hsecs).trans
      (dictGet?_dictSet_ne pm tgt loc _ hne)
  · exact superVisit_untouched rm pm (.mk cls tgt size ck secs) c s loc h
termination_by (sizeOf obj, 1)

/-- The parent staging step leaves outside locations unchanged. -/
theorem superVisit_untouched (rm : ReplicaMap) (pm : PathMap) (obj : CwlObj) (c s : Bool)
    (loc : String) :
    loc ∉ objLocations obj → dictGet? (superVisit rm pm obj c s).1 loc = dictGet? pm loc := by
  obtain ⟨cls, tgt, size, ck, secs⟩ := obj
  intro h
  have hne : loc ≠ tgt := by
    intro hloc
    exact h (by simp [objLocations, hloc])
  have hsecs : loc ∉ listLocations secs := by
    intro hloc
    exact h (by simp [objLocations, hloc])
  rw [superVisit]
  exact (visitlisting_untouched rm _ secs c s loc hsecs).trans
    (dictGet?_dictSet_ne pm tgt loc _ hne)
termination_by (sizeOf obj, 0)

/-- `visitlisting` leaves outside locations unchanged. -/
theorem visitlisting_untouched (rm : ReplicaMap) (pm : PathMap) (objs : List CwlObj)
    (c s : Bool) (loc : String) :
    loc ∉ listLocations objs → dictGet? (visitlisting rm pm objs c s).1 loc = dictGet? pm loc := by
  cases objs with
  | nil => intro _; rw [visitlisting]
  | cons o rest =>
      intro h
      have ho : loc ∉ objLocations o := by
        intro hloc
        exact h (by simp [listLocations, hloc])
      have hrest : loc ∉ listLocations rest := by
        intro hloc
        exact h (by simp [listLocations, hloc])
      rw [visitlisting]
      exact (visitlisting_untouched rm _ rest c s loc hrest).trans
        (visit_untouched rm pm o c s loc ho)
termination_by (sizeOf objs, 3)

end

mutual

/-- After `visit`, every location in the object's tree has a path-map
entry. -/
theorem visit_covers (rm : ReplicaMap) (pm : PathMap) (obj : CwlObj) (c s : Bool)
    (loc : String) :
    loc ∈ objLocations obj → (dictGet? (visit rm pm obj c s).1 loc).isSome := by
  obtain ⟨cls, tgt, size, ck, secs⟩ := obj
  intro h
  have hm : loc = tgt ∨ loc ∈ listLocations secs := by
    simpa [objLocations] using h
  rw [visit]
  split
  · split
    · split
      · rcases hm with rfl | hm
        · exact visitlisting_mono rm _ secs c s loc
            (isSome_dictGet?_dictSet_self pm loc _)
        · exact visitlisting_covers rm _ secs c s loc hm
      · exact visitNonLfn_covers rm pm (.mk cls tgt size ck secs) c s loc h
    · exact visitNonLfn_covers rm pm (.mk cls tgt size ck secs) c s loc h
  · exact visitNonLfn_covers rm pm (.mk cls tgt size ck secs) c s loc h
termination_by (sizeOf obj, 2)

/-- After the post-LFN part of `visit`, every location in the object's
tree has a path-map entry. -/
theorem visitNonLfn_covers (rm : ReplicaMap) (pm : PathMap) (obj : CwlObj) (c s : Bool)
    (loc : String) :
    loc ∈ objLocations obj → (dictGet? (visitNonLfn rm pm obj c s).1 loc).isSome := by
  obtain ⟨cls, tgt, size, ck, secs⟩ := obj
  intro h
  have hm : loc = tgt ∨ loc ∈ listLocations secs := by
    simpa [objLocations] using h
  rw [visitNonLfn]
  split
  · rcases hm with rfl | hm
    · exact visitlisting_mono rm _ secs c s loc
        (isSome_dictGet?_dictSet_self pm loc _)
    · exact visitlisting_covers rm _ secs c s loc hm
  · exact superVisit_covers rm pm (.mk cls tgt size ck secs) c s loc h
termination_by (sizeOf obj, 1)

/-- After the parent staging step, every location in the object's tree
has a path-map entry. -/
theorem superVisit_covers (rm : ReplicaMap) (pm : PathMap) (obj : CwlObj) (c s : Bool)
    (loc : String) :
    loc ∈ objLocations obj → (dictGet? (superVisit rm pm obj c s).1 loc).isSome := by
  obtain ⟨cls, tgt, size, ck, secs⟩ := obj
  intro h
  have hm : loc = tgt ∨ loc ∈ listLocations secs := by
    simpa [objLocations] using h
  rw [superVisit]
  rcases hm with rfl | hm
  · exact visitlisting_mono rm _ secs c s loc
      (isSome_dictGet?_dictSet_self pm loc _)
  · exact visitlisting_covers rm _ secs c s loc hm
termination_by (sizeOf obj, 0)

/-- After `visitlisting`, every location in the list's trees has a
path-map entry. -/
theorem visitlisting_covers (rm : ReplicaMap) (pm : PathMap) (objs : List CwlObj)
    (c s : Bool) (loc : String) :
    loc ∈ listLocations objs → (dictGet? (visitlisting rm pm objs c s).1 loc).isSome := by
  cases objs with
  | nil => intro h; simp [listLocations] at h
  | cons o rest =>
      intro h
      have hm : loc ∈ objLocations o ∨ loc ∈ listLocations rest := by
        simpa [listLocations] using h
      rw [visitlisting]
      rcases hm with hm | hm
      · exact visitlisting_mono rm _ rest c s loc (visit_covers rm pm o c s loc hm)
      · exact visitlisting_covers rm _ rest c s loc hm
termination_by (sizeOf objs, 3)

end

/-- Claim C6: a `File` whose location is an LFN reference resolvable
through the bound catalog to an entry with at least one replica is
mapped unstaged, with both `resolved` and `target` equal to the first
replica's physical location ; the entry's `size_bytes` and checksum are
attached to the file object only when those fields are not already
present ; and every declared secondary file is processed recursively
(an entry appears in the path map for each of their locations). -/
theorem claim_c6_lfn_staging (rm : ReplicaMap) (pm : PathMap)
    (tgt : String) (size : Option Nat) (ck : Option String) (secs : List CwlObj)
    (copy staged : Bool) (entry : MapEntry) (r : Replica) (rs : List Replica)
    (hpre : strStarts tgt "LFN:" = true)
    (hent : dictGet? rm (tgt.drop 4) = some entry)
    (hrep : entry.replicas = r :: rs)
    (hsec : tgt ∉ listLocations secs) :
    dictGet? (visit rm pm (.mk (some "File") tgt size ck secs) copy staged).1 tgt =
      some ⟨r.url.full, r.url.full, "File", false⟩ ∧
    (visit rm pm (.mk (some "File") tgt size ck secs) copy staged).2.size =
      (if size.isSome then size else entry.size_bytes) ∧
    (visit rm pm (.mk (some "File") tgt size ck secs) copy staged).2.checksum =
      (if ck.isSome then ck
        else (entry.checksum.bind Checksum.adler32).map (fun a => "adler32$" ++ a)) ∧
    (∀ loc, loc ∈ listLocations secs →
      (dictGet? (visit rm pm (.mk (some "File") tgt size ck secs) copy staged).1 loc).isSome) := by
  have hv : visit rm pm (.mk (some "File") tgt size ck secs) copy staged =
      ((visitlisting rm
          (dictSet pm tgt ⟨r.url.full, r.url.full, "File", false⟩) secs copy staged).1,
        .mk (some "File") tgt
          (match size with
            | some s0 => some s0
            | none => entry.size_bytes)
          (match ck with
            | some c0 => some c0
            | none =>
                match entry.checksum with
                | some chk =>
                    match chk.adler32 with
                    | some a => some ("adler32$" ++ a)
                    | none => none
                | none => none)
          (visitlisting rm
            (dictSet pm tgt ⟨r.url.full, r.url.full, "File", false⟩) secs copy staged).2) := by
    rw [visit]
    simp only [hpre, hent, hrep, beq_self_eq_true, Bool.and_self, if_true]
  rw [hv]
  refine ⟨?_, ?_, ?_, ?_⟩
  · rw [visitlisting_untouched rm _ secs copy staged tgt hsec]
    exact dictGet?_dictSet_self pm tgt _
  · cases size <;> simp [CwlObj.size]
  · cases ck with
    | some c0 => simp [CwlObj.checksum]
    | none =>
        cases hck : entry.checksum with
        | none => simp [CwlObj.checksum, hck]
        | some chk =>
            cases ha : chk.adler32 with
            | none => simp [CwlObj.checksum, hck, ha]
            | some a => simp [CwlObj.checksum, hck, ha]
  · intro loc hloc
    exact visitlisting_covers rm _ secs copy staged loc hloc

/-- Catalog entry used by the staging witness. -/
def pmEntryC6 : MapEntry :=
  ⟨[⟨⟨"root", some "/pool/data.root", "root://se/pool/data.root"⟩, some "SE1"⟩],
    some 100, some ⟨some "788c5caa", none⟩⟩

/-- Catalog used by the staging witness. -/
def rmC6 : ReplicaMap := [("data.root", pmEntryC6)]

/-- A secondary file object with a plain local location. -/
def secObj : CwlObj := .mk (some "File") "/local/aux.idx" none none []

theorem claim_c6_lfn_staging_witness :
    dictGet? (visit rmC6 []
        (.mk (some "File") "LFN:data.root" none none [secObj]) false false).1
        "LFN:data.root" =
      some ⟨"root://se/pool/data.root", "root://se/pool/data.root", "File", false⟩ ∧
    (visit rmC6 []
        (.mk (some "File") "LFN:data.root" none none [secObj]) false false).2.size =
      (if (none : Option Nat).isSome then none else pmEntryC6.size_bytes) ∧
    (visit rmC6 []
        (.mk (some "File") "LFN:data.root" none none [secObj]) false false).2.checksum =
      (if (none : Option String).isSome then none
        else (pmEntryC6.checksum.bind Checksum.adler32).map (fun a => "adler32$" ++ a)) ∧
    (dictGet? (visit rmC6 []
        (.mk (some "File") "LFN:data.root" none none [secObj]) false false).1
        "/local/aux.idx").isSome :=
  have h := claim_c6_lfn_staging rmC6 [] "LFN:data.root" none none [secObj] false false
    pmEntryC6 ⟨⟨"root", some "/pool/data.root", "root://se/pool/data.root"⟩, some "SE1"⟩ []
    (by decide) (by decide) (by decide)
    (by simp [listLocations, objLocations, secObj])
  ⟨h.1, h.2.1, h.2.2.1,
    h.2.2.2 "/local/aux.idx" (by simp [listLocations, objLocations, secObj])⟩

end DiracCWL
